import Mathlib

/-!
Verification of the AT24C256 I2C EEPROM driver and settings-persistence layer
in `Examples/i2c_eeprom_AT24C256/main.c`.

The driver is embedded shallowly:

* The I2C bus plus the EEPROM device is modelled by `Device`: the byte array
  (`mem`), the device's internal address pointer (`ptr`, set by every addressed
  write), and an internal write-cycle counter (`busy`).  Modelled from the
  spec's device description: after a data-carrying write transaction the device
  is internally busy for a while and refuses to acknowledge (NACKs) bus
  transactions; `busy` counts how many further transactions it will NACK, and
  `busyAfterWrite` is the device parameter giving the busy duration that each
  data write starts.  A write whose payload stays inside one 64-byte page is
  stored linearly; per the spec, the device silently wraps within a page if a
  write runs past a page end (`writeMemWrap`).
* Every bus transaction is recorded in a trace (`Txn`), so the theorems can
  speak about the exact sequence of transactions each driver call issues.
* Each C function becomes a Lean function threading the `Device` state and
  returning the transaction trace it produced.  C's `uint8_t`/`uint16_t`
  values are `Nat`s; truncating casts in the C source become explicit `% 256`
  and `% 65536`.
-/

/-- Page size of the AT24C256: 64 bytes per page (`#define PAGE_SIZE 64`). -/
def PAGE_SIZE : Nat := 64

/-- Device capacity: 32768 bytes (32,768 x 8 per the datasheet comment). -/
def CAPACITY : Nat := 32768

/-- Error code returned by the SDK bus functions when the device does not
acknowledge (`PICO_ERROR_GENERIC`). -/
def PICO_ERROR_GENERIC : Int := -1

/-- One bus transaction as seen by the transport: an addressed write carrying
raw bytes, or an addressed read of a given length.  `nostop` is the SDK's
repeated-start flag (`true` holds the bus), `acked` records whether the device
acknowledged. -/
inductive Txn where
  | write (bytes : List Nat) (nostop : Bool) (acked : Bool)
  | read (len : Nat) (result : List Nat) (nostop : Bool) (acked : Bool)
deriving DecidableEq, Repr

/-- The EEPROM device: byte memory, internal address pointer, remaining busy
count of the current write cycle, and the busy duration started by each data
write (a device parameter). -/
structure Device where
  mem : Nat → Nat
  ptr : Nat
  busy : Nat
  busyAfterWrite : Nat

/-- Store one byte into the device memory (memory cells hold 8 bits). -/
def updateMem (mem : Nat → Nat) (a d : Nat) : Nat → Nat :=
  fun x => if x = a then d % 256 else mem x

/-- Modelled from the spec: the device's in-page address increment.  While
receiving write data the address counter increments only in its low 6 bits,
so a write reaching the end of a 64-byte page wraps to the page start. -/
def nextInPage (a : Nat) : Nat :=
  (a / PAGE_SIZE) * PAGE_SIZE + ((a % PAGE_SIZE + 1) % PAGE_SIZE)

/-- Modelled from the spec: the device stores the data bytes of a write
transaction starting at the addressed cell, wrapping within the page. -/
def writeMemWrap : (Nat → Nat) → Nat → List Nat → Nat → Nat
  | mem, _, [] => mem
  | mem, a, d :: ds => writeMemWrap (updateMem mem a d) (nextInPage a) ds

/-- Read `len` bytes of device memory starting at address `a` (sequential
reads advance across page boundaries transparently). -/
def readMem (mem : Nat → Nat) (a len : Nat) : List Nat :=
  (List.range len).map (fun i => mem (a + i))

/-- SDK `i2c_write_blocking` towards the EEPROM at its fixed device address:
returns the new device state, the recorded transaction, and the SDK return
value (number of bytes, or `PICO_ERROR_GENERIC` when the device is busy and
NACKs).  An acknowledged write of `[hi, lo, data...]` latches the address
pointer to `hi*256+lo`, stores the data there, and (when data is present)
starts a write cycle.  A write shorter than two bytes (the ready-probe) does
not change memory. -/
def i2c_write_blocking (dev : Device) (bytes : List Nat) (nostop : Bool) :
    Device × Txn × Int :=
  if 0 < dev.busy then
    ({ dev with busy := dev.busy - 1 }, Txn.write bytes nostop false, PICO_ERROR_GENERIC)
  else
    match bytes with
    | hi :: lo :: data =>
        let a := (hi % 256) * 256 + lo % 256
        ({ dev with
             mem := writeMemWrap dev.mem a data
             ptr := a
             busy := if data.isEmpty then 0 else dev.busyAfterWrite },
         Txn.write bytes nostop true, (bytes.length : Int))
    | _ =>
        (dev, Txn.write bytes nostop true, (bytes.length : Int))

/-- SDK `i2c_read_blocking` towards the EEPROM: returns `len` bytes starting
at the device's address pointer and advances the pointer; NACKed (busy) reads
return no data. -/
def i2c_read_blocking (dev : Device) (len : Nat) (nostop : Bool) :
    Device × Txn × List Nat :=
  if 0 < dev.busy then
    ({ dev with busy := dev.busy - 1 }, Txn.read len [] nostop false, [])
  else
    ({ dev with ptr := dev.ptr + len },
     Txn.read len (readMem dev.mem dev.ptr len) nostop true,
     readMem dev.mem dev.ptr len)

/-- C `eeprom_wait_ready`: poll the device with a one-byte addressed write
(the C code sends one uninitialized `dummy` byte; its value is irrelevant and
modelled as 0) until the device ACKs, sleeping 100us between attempts (timing
is not modelled).  The loop terminates exactly because the modelled device's
busy count decreases with every NACKed probe. -/
def eeprom_wait_ready (dev : Device) : Device × List Txn :=
  let r := i2c_write_blocking dev [0] false
  if r.2.2 < 0 then
    let rest := eeprom_wait_ready r.1
    (rest.1, r.2.1 :: rest.2)
  else
    (r.1, [r.2.1])
termination_by dev.busy
decreasing_by
  by_cases hb : 0 < dev.busy
  · simp only [i2c_write_blocking, if_pos hb]
    omega
  · exfalso
    revert r
    simp only [i2c_write_blocking, if_neg hb]
    intro h
    simp at h

/-- C `_eeprom_write_page_raw`: one bus transaction carrying the big-endian
16-bit memory address followed by the data bytes, then the post-write ready
barrier. -/
def _eeprom_write_page_raw (dev : Device) (mem_addr : Nat) (data : List Nat) :
    Device × List Txn :=
  let buf := (mem_addr / 256) % 256 :: mem_addr % 256 :: data
  let r := i2c_write_blocking dev buf false
  let w := eeprom_wait_ready r.1
  (w.1, r.2.1 :: w.2)

/-- C `eeprom_write_buffer`: split the data at page boundaries; each chunk is
`min remaining (PAGE_SIZE - addr % PAGE_SIZE)` bytes, written via
`_eeprom_write_page_raw`; `addr` is a `uint16_t`, so its advance wraps
modulo 65536. -/
def eeprom_write_buffer : Device → Nat → List Nat → Device × List Txn
  | dev, _, [] => (dev, [])
  | dev, addr, d :: ds =>
      let data := d :: ds
      let space_in_page := PAGE_SIZE - addr % PAGE_SIZE
      let chunk_size := min data.length space_in_page
      let r := _eeprom_write_page_raw dev addr (data.take chunk_size)
      let rest := eeprom_write_buffer r.1 ((addr + chunk_size) % 65536) (data.drop chunk_size)
      (rest.1, r.2 ++ rest.2)
termination_by _ _ data => data.length
decreasing_by
  simp only [List.length_drop, List.length_cons]
  have : addr % PAGE_SIZE < PAGE_SIZE := Nat.mod_lt _ (by decide)
  simp only [PAGE_SIZE] at *
  omega

/-- C `eeprom_read_buffer`: dummy write of the big-endian 16-bit start address
with the bus held (repeated start), then a single read of `len` bytes. -/
def eeprom_read_buffer (dev : Device) (addr len : Nat) :
    Device × List Txn × List Nat :=
  let reg_addr := [(addr / 256) % 256, addr % 256]
  let r1 := i2c_write_blocking dev reg_addr true
  let r2 := i2c_read_blocking r1.1 len false
  (r2.1, [r1.2.1, r2.2.1], r2.2.2)

/-- C `eeprom_write_byte`: one transaction `[hi, lo, data]`, then the ready
barrier. -/
def eeprom_write_byte (dev : Device) (mem_addr : Nat) (data : Nat) :
    Device × List Txn :=
  let buf := [(mem_addr / 256) % 256, mem_addr % 256, data]
  let r := i2c_write_blocking dev buf false
  let w := eeprom_wait_ready r.1
  (w.1, r.2.1 :: w.2)

/-- C `eeprom_read_byte`: dummy write of the address with the bus held, then a
single one-byte read; `rx_data` is initialized to 0 in the C code, so a NACKed
read yields 0. -/
def eeprom_read_byte (dev : Device) (mem_addr : Nat) :
    Device × List Txn × Nat :=
  let reg_addr := [(mem_addr / 256) % 256, mem_addr % 256]
  let r1 := i2c_write_blocking dev reg_addr true
  let r2 := i2c_read_blocking r1.1 1 false
  (r2.1, [r1.2.1, r2.2.1], r2.2.2.headD 0)

/-- C `eeprom_update_byte`: read the stored byte first; write only when the
new value differs. -/
def eeprom_update_byte (dev : Device) (addr : Nat) (new_val : Nat) :
    Device × List Txn :=
  let r := eeprom_read_byte dev addr
  let old_val := r.2.2
  if old_val ≠ new_val then
    let w := eeprom_write_byte r.1 addr new_val
    (w.1, r.2.1 ++ w.2)
  else
    (r.1, r.2.1)

/-- Modelled from the spec: the same do-while polling loop as
`eeprom_wait_ready`, abstracted over the device's per-probe ACK outcomes and
given an explicit fuel bound, to express that the C loop has no upper retry
bound.  Returns the number of probes issued on ACK, `none` when the fuel runs
out first. -/
def waitReadyFuel (ack : Nat → Bool) : Nat → Nat → Option Nat
  | 0, _ => none
  | fuel + 1, i => if ack i then some (i + 1) else waitReadyFuel ack fuel (i + 1)

/-- Fixed storage address of the settings record (`#define SETTINGS_ADDR 0x0000`). -/
def SETTINGS_ADDR : Nat := 0x0000

/-- Magic marker for a valid settings record (`#define MAGIC_CODE 0xA55A`). -/
def MAGIC_CODE : Nat := 0xA55A

/-!
The `SystemSettings` struct.  The C functions (`calc_checksum`, the
`settings_*` functions) access the record through a `uint8_t*` over its object
representation, so the record is embedded as its 40 raw bytes.  With the
declared field order and C alignment rules there is no padding:

* bytes 0..3: `int32_t motor_offset` (little-endian, RP2040);
* bytes 4..5: `uint16_t magic` (little-endian);
* bytes 6..37: `uint8_t wifi_ssid[32]`;
* byte 38: `uint8_t volume`;
* byte 39: `uint8_t checksum`.
-/

/-- Size of `SystemSettings` (`sizeof(SystemSettings)` = 40, per the comment
in the C source). -/
def SIZEOF_SystemSettings : Nat := 40

/-- The `magic` field of a serialized `SystemSettings`: little-endian
`uint16_t` at bytes 4..5. -/
def magic_of (b : List Nat) : Nat := b.getD 4 0 + 256 * b.getD 5 0

/-- The `checksum` field of a serialized `SystemSettings`: byte 39. -/
def checksum_of (b : List Nat) : Nat := b.getD 39 0

/-- C `calc_checksum`: `uint8_t` running sum of the first
`sizeof(SystemSettings) - 1 = 39` bytes of the record, i.e. every byte except
the trailing checksum byte. -/
def calc_checksum (b : List Nat) : Nat :=
  (b.take 39).foldl (fun sum x => (sum + x) % 256) 0

/-- Store a run of byte values into a serialized record starting at byte
index `i` (each C assignment to a `uint8_t` cell truncates). -/
def setBytes : List Nat → Nat → List Nat → List Nat
  | b, _, [] => b
  | b, i, v :: vs => setBytes (b.set i (v % 256)) (i + 1) vs

/-- The default-record field assignments of `settings_init`, applied to the
in-memory record `b`: `magic = MAGIC_CODE`, `strcpy(wifi_ssid, "MyWifi")`
(which stores the 7 bytes `M y W i f i NUL` and leaves `wifi_ssid[7..31]`
untouched), `volume = 50`, `motor_offset = 0`.  The checksum byte is not
assigned here; `settings_save` overwrites it. -/
def default_bytes (b : List Nat) : List Nat :=
  let b1 := setBytes b 4 [0x5A, 0xA5]
  let b2 := setBytes b1 6 [77, 121, 87, 105, 102, 105, 0]
  let b3 := setBytes b2 38 [50]
  setBytes b3 0 [0, 0, 0, 0]

/-- C `settings_save`: overwrite the checksum byte with `calc_checksum`, then
write the whole 40-byte record to `SETTINGS_ADDR` through the paged buffer
write.  The C global `current_settings` is threaded explicitly; the function
returns the record it persisted. -/
def settings_save (dev : Device) (cur : List Nat) :
    Device × List Txn × List Nat :=
  let cur2 := cur.set 39 (calc_checksum cur)
  let r := eeprom_write_buffer dev SETTINGS_ADDR cur2
  (r.1, r.2, cur2)

/-- C `settings_init`: read the 40-byte record from `SETTINGS_ADDR`; if the
magic marker or the checksum does not match, load the defaults and persist
them via `settings_save`; otherwise keep the stored record.  Returns the final
value of `current_settings`. -/
def settings_init (dev : Device) : Device × List Txn × List Nat :=
  let r := eeprom_read_buffer dev SETTINGS_ADDR SIZEOF_SystemSettings
  let cur := r.2.2
  let calced_sum := calc_checksum cur
  if magic_of cur ≠ MAGIC_CODE ∨ checksum_of cur ≠ calced_sum then
    let w := settings_save r.1 (default_bytes cur)
    (w.1, r.2.1 ++ w.2.1, w.2.2)
  else
    (r.1, r.2.1, cur)

/-- A transaction that carries data to be stored: an addressed write with the
two address bytes and at least one data byte. -/
def isDataWrite : Txn → Bool
  | Txn.write bytes _ _ => 3 ≤ bytes.length
  | Txn.read _ _ _ _ => false

/-- The data-carrying write transactions of a trace. -/
def dataWrites (ts : List Txn) : List Txn := ts.filter isDataWrite

/-- The memory address targeted by an addressed write transaction (big-endian
16-bit, high byte first). -/
def txnAddr : Txn → Nat
  | Txn.write (hi :: lo :: _) _ _ => (hi % 256) * 256 + lo % 256
  | _ => 0

/-- The data payload of a write transaction (the bytes after the two address
bytes). -/
def txnPayload : Txn → List Nat
  | Txn.write (_ :: _ :: d) _ _ => d
  | _ => []

/-- Plain linear byte store: `data` laid down at consecutive addresses
starting at `a`.  The page-splitting lemmas show the driver's writes reduce to
this, page wrapping notwithstanding. -/
def storeBytes : (Nat → Nat) → Nat → List Nat → Nat → Nat
  | mem, _, [] => mem
  | mem, a, d :: ds => storeBytes (updateMem mem a d) (a + 1) ds

/-- An all-zero device memory. -/
def mem0 : Nat → Nat := fun _ => 0

/-- A concrete ready device used for witnesses: blank memory, pointer at 0,
not busy, and each data write keeps the device busy for one probe. -/
def dev0 : Device := { mem := mem0, ptr := 0, busy := 0, busyAfterWrite := 1 }

/-! ## Behaviour of the bus primitives -/

/-- A ready probe against a busy device NACKs and consumes one busy step. -/
lemma probe_busy (dev : Device) (h : 0 < dev.busy) :
    i2c_write_blocking dev [0] false =
      ({ dev with busy := dev.busy - 1 }, Txn.write [0] false false,
       PICO_ERROR_GENERIC) := by
  simp [i2c_write_blocking, h]

/-- A ready probe against a ready device ACKs and changes nothing. -/
lemma probe_ready (dev : Device) (h : dev.busy = 0) :
    i2c_write_blocking dev [0] false = (dev, Txn.write [0] false true, 1) := by
  simp [i2c_write_blocking, h]

/-- Running the ready barrier on a device with `n` busy steps left issues
exactly `n` NACKed probes followed by one ACKed probe and leaves the device
ready, with memory and pointer untouched. -/
lemma wait_ready_run : ∀ (n : Nat) (dev : Device), dev.busy = n →
    eeprom_wait_ready dev =
      ({ dev with busy := 0 },
       List.replicate n (Txn.write [0] false false)
         ++ [Txn.write [0] false true]) := by
  intro n
  induction n with
  | zero =>
      intro dev h
      rw [eeprom_wait_ready.eq_def]
      simp only [probe_ready dev h]
      norm_num
      cases dev
      simp_all
  | succ n ih =>
      intro dev h
      rw [eeprom_wait_ready.eq_def]
      simp only [probe_busy dev (by omega), PICO_ERROR_GENERIC]
      norm_num
      rw [ih { dev with busy := dev.busy - 1 } (by simp [h])]
      simp [h, List.replicate_succ]

/-! ## Memory lemmas -/

/-- Pointwise description of `storeBytes`. -/
lemma storeBytes_lookup : ∀ (data : List Nat) (mem : Nat → Nat) (a x : Nat),
    storeBytes mem a data x =
      if a ≤ x ∧ x < a + data.length then data.getD (x - a) 0 % 256 else mem x := by
  intro data
  induction data with
  | nil =>
      intro mem a x
      simp only [storeBytes, List.length_nil, Nat.add_zero]
      rw [if_neg (by omega)]
  | cons d ds ih =>
      intro mem a x
      rw [storeBytes, ih]
      by_cases hx : x = a
      · subst hx
        simp [updateMem]
      · by_cases hin : a + 1 ≤ x ∧ x < a + 1 + ds.length
        · rw [if_pos hin, if_pos (by simp; omega)]
          have hxa : x - a = (x - (a + 1)) + 1 := by omega
          rw [hxa]
          simp
        · rw [if_neg hin, if_neg (by simp; omega)]
          simp [updateMem, hx]

/-- `storeBytes` distributes over list append. -/
lemma storeBytes_append : ∀ (xs ys : List Nat) (mem : Nat → Nat) (a : Nat),
    storeBytes mem a (xs ++ ys) =
      storeBytes (storeBytes mem a xs) (a + xs.length) ys := by
  intro xs
  induction xs with
  | nil => intro ys mem a; simp [storeBytes]
  | cons x xs ih =>
      intro ys mem a
      simp only [List.cons_append, storeBytes, List.append_eq, ih, List.length_cons]
      have h : a + 1 + xs.length = a + (xs.length + 1) := by omega
      rw [h]

/-- While a write stays inside one page, the device's wrap-around store is a
plain linear store. -/
lemma writeMemWrap_eq_storeBytes :
    ∀ (data : List Nat) (mem : Nat → Nat) (a : Nat),
      data.length ≤ PAGE_SIZE - a % PAGE_SIZE →
      writeMemWrap mem a data = storeBytes mem a data := by
  intro data
  induction data with
  | nil => intro mem a _; rfl
  | cons d ds ih =>
      intro mem a hlen
      rw [writeMemWrap, storeBytes]
      cases ds with
      | nil => rw [writeMemWrap, storeBytes]
      | cons e es =>
          simp only [List.length_cons, PAGE_SIZE] at hlen
          have hnext : nextInPage a = a + 1 := by
            simp only [nextInPage, PAGE_SIZE]
            omega
          rw [hnext, ih _ _ (by simp only [List.length_cons, PAGE_SIZE]; omega)]

/-- Reading back a region just stored linearly returns the stored bytes,
truncated to 8 bits. -/
lemma readMem_storeBytes (data : List Nat) (mem : Nat → Nat) (a n : Nat)
    (hn : n ≤ data.length) :
    readMem (storeBytes mem a data) a n = (data.take n).map (fun b => b % 256) := by
  apply List.ext_getElem
  · simp [readMem]; omega
  · intro i hi hj
    simp only [readMem, List.getElem_map, List.getElem_range, List.getElem_take]
    rw [storeBytes_lookup]
    have hilen : i < n := by simp [readMem] at hi; omega
    rw [if_pos (by omega)]
    have : a + i - a = i := by omega
    rw [this]
    rw [List.getD_eq_getElem data 0 (by omega)]

/-- Addresses outside the stored region are unchanged. -/
lemma storeBytes_outside (data : List Nat) (mem : Nat → Nat) (a x : Nat)
    (hx : x < a ∨ a + data.length ≤ x) :
    storeBytes mem a data x = mem x := by
  rw [storeBytes_lookup, if_neg (by omega)]

/-! ## Behaviour of the driver operations -/

/-- Effect of one `_eeprom_write_page_raw` call from a ready device: a single
acknowledged data transaction carrying the big-endian address and the data,
then the ready barrier's probes; the data lands linearly in memory (the write
fits in one page) and the device ends ready. -/
lemma write_page_raw_run (dev : Device) (addr : Nat) (data : List Nat)
    (hb : dev.busy = 0) (ha : addr < 65536) (hd : data ≠ [])
    (hlen : data.length ≤ PAGE_SIZE - addr % PAGE_SIZE) :
    _eeprom_write_page_raw dev addr data =
      ({ dev with mem := storeBytes dev.mem addr data, ptr := addr, busy := 0 },
       Txn.write ((addr / 256) % 256 :: addr % 256 :: data) false true
         :: (List.replicate dev.busyAfterWrite (Txn.write [0] false false)
             ++ [Txn.write [0] false true])) := by
  obtain ⟨d, ds, rfl⟩ : ∃ d ds, data = d :: ds := by
    cases data with
    | nil => exact absurd rfl hd
    | cons d ds => exact ⟨d, ds, rfl⟩
  obtain ⟨m, p, b, w⟩ := dev
  simp only at hb
  subst hb
  rw [_eeprom_write_page_raw]
  simp only [i2c_write_blocking, Nat.lt_irrefl, if_false, List.isEmpty_cons]
  have ha2 : (addr / 256) % 256 % 256 * 256 + addr % 256 % 256 = addr := by omega
  simp only [ha2]
  rw [wait_ready_run w _ (by simp)]
  simp only [writeMemWrap_eq_storeBytes _ _ _ hlen]

/-- Effect of `eeprom_write_buffer` on the device, for requests whose address
arithmetic stays below the 16-bit wrap: the data is stored linearly and the
device ends ready, with the busy parameter untouched. -/
lemma write_buffer_run : ∀ (n : Nat) (dev : Device) (addr : Nat) (data : List Nat),
    data.length ≤ n → dev.busy = 0 → addr + data.length ≤ 65536 →
    (eeprom_write_buffer dev addr data).1.mem = storeBytes dev.mem addr data ∧
    (eeprom_write_buffer dev addr data).1.busy = 0 ∧
    (eeprom_write_buffer dev addr data).1.busyAfterWrite = dev.busyAfterWrite := by
  intro n
  induction n with
  | zero =>
      intro dev addr data hn hb hcap
      have hnil : data = [] := List.length_eq_zero.mp (by omega)
      subst hnil
      simp [eeprom_write_buffer, storeBytes, hb]
  | succ n ih =>
      intro dev addr data hn hb hcap
      cases data with
      | nil => simp [eeprom_write_buffer, storeBytes, hb]
      | cons d ds =>
          rw [show eeprom_write_buffer dev addr (d :: ds) =
              (let data := d :: ds
               let space_in_page := PAGE_SIZE - addr % PAGE_SIZE
               let chunk_size := min data.length space_in_page
               let r := _eeprom_write_page_raw dev addr (data.take chunk_size)
               let rest := eeprom_write_buffer r.1 ((addr + chunk_size) % 65536)
                 (data.drop chunk_size)
               (rest.1, r.2 ++ rest.2)) from by rw [eeprom_write_buffer]]
          simp only
          set chunk := min (d :: ds).length (PAGE_SIZE - addr % PAGE_SIZE) with hchunk
          have hsp : 0 < PAGE_SIZE - addr % PAGE_SIZE := by
            simp only [PAGE_SIZE]; omega
          have hc1 : 1 ≤ chunk := by
            rw [hchunk]; simp only [List.length_cons]; omega
          have hclen : chunk ≤ (d :: ds).length := min_le_left _ _
          have ha : addr < 65536 := by
            simp only [List.length_cons] at hcap; omega
          have htake : ((d :: ds).take chunk).length = chunk :=
            List.length_take_of_le hclen
          have htne : (d :: ds).take chunk ≠ [] := by
            intro h
            rw [h] at htake
            simp at htake
            omega
          rw [write_page_raw_run dev addr _ hb ha htne (by rw [htake]; exact min_le_right _ _)]
          simp only
          by_cases hrest : (d :: ds).drop chunk = []
          · rw [hrest]
            have : ∀ a2 : Nat,
                eeprom_write_buffer { dev with
                  mem := storeBytes dev.mem addr ((d :: ds).take chunk),
                  ptr := addr, busy := 0 } a2 [] =
                ({ dev with
                  mem := storeBytes dev.mem addr ((d :: ds).take chunk),
                  ptr := addr, busy := 0 }, []) := by
              intro a2; rw [eeprom_write_buffer]
            rw [this]
            have hall : (d :: ds).take chunk = d :: ds := by
              have := List.length_drop chunk (d :: ds)
              rw [hrest] at this
              simp only [List.length_nil] at this
              exact List.take_of_length_le (by omega)
            simp [hall]
          · have hlt : chunk < (d :: ds).length := by
              by_contra hge
              exact hrest (List.drop_eq_nil_of_le (by omega))
            have hmod : (addr + chunk) % 65536 = addr + chunk := by
              apply Nat.mod_eq_of_lt
              simp only [List.length_cons] at hcap
              simp only [List.length_cons] at hlt
              omega
            rw [hmod]
            have hrec := ih { dev with
                mem := storeBytes dev.mem addr ((d :: ds).take chunk),
                ptr := addr, busy := 0 } (addr + chunk) ((d :: ds).drop chunk)
              (by simp only [List.length_drop]; omega) (by simp)
              (by simp only [List.length_drop]; omega)
            simp only at hrec
            refine ⟨?_, hrec.2.1, hrec.2.2⟩
            rw [hrec.1]
            rw [show addr + chunk = addr + ((d :: ds).take chunk).length from by
              rw [htake]]
            rw [← storeBytes_append, List.take_append_drop]

/-- A buffer write that fits in the remaining space of one page issues exactly
one data transaction followed by the ready barrier. -/
lemma write_buffer_single_page (dev : Device) (addr : Nat) (data : List Nat)
    (hb : dev.busy = 0) (hd : data ≠ []) (ha : addr < 65536)
    (hlen : data.length ≤ PAGE_SIZE - addr % PAGE_SIZE) :
    eeprom_write_buffer dev addr data =
      ({ dev with mem := storeBytes dev.mem addr data, ptr := addr, busy := 0 },
       Txn.write ((addr / 256) % 256 :: addr % 256 :: data) false true
         :: (List.replicate dev.busyAfterWrite (Txn.write [0] false false)
             ++ [Txn.write [0] false true])) := by
  obtain ⟨d, ds, rfl⟩ : ∃ d ds, data = d :: ds := by
    cases data with
    | nil => exact absurd rfl hd
    | cons d ds => exact ⟨d, ds, rfl⟩
  rw [eeprom_write_buffer]
  simp only [Nat.min_eq_left hlen, List.take_length, List.drop_length]
  rw [write_page_raw_run dev addr _ hb ha hd hlen]
  rw [eeprom_write_buffer]
  simp

/-- Effect of `eeprom_read_buffer` from a ready device: the address pointer is
latched, memory is untouched, and the read returns the memory contents at the
requested range. -/
lemma read_buffer_run (dev : Device) (addr len : Nat)
    (hb : dev.busy = 0) (ha : addr < 65536) :
    eeprom_read_buffer dev addr len =
      ({ dev with ptr := addr + len },
       [Txn.write [(addr / 256) % 256, addr % 256] true true,
        Txn.read len (readMem dev.mem addr len) false true],
       readMem dev.mem addr len) := by
  obtain ⟨m, p, b, w⟩ := dev
  simp only at hb
  subst hb
  rw [eeprom_read_buffer]
  simp only [i2c_write_blocking, i2c_read_blocking, Nat.lt_irrefl, if_false,
    List.isEmpty_nil, if_true]
  have ha2 : (addr / 256) % 256 % 256 * 256 + addr % 256 % 256 = addr := by omega
  simp only [ha2, writeMemWrap]

/-! ## Checksum and record-layout lemmas -/

/-- The C `uint8_t` running sum equals the truncated sum of the list. -/
lemma foldl_mod256 : ∀ (l : List Nat) (s : Nat), s < 256 →
    l.foldl (fun a x => (a + x) % 256) s = (s + l.sum) % 256 := by
  intro l
  induction l with
  | nil => intro s hs; simp [Nat.mod_eq_of_lt hs]
  | cons x xs ih =>
      intro s hs
      rw [List.foldl_cons, ih _ (Nat.mod_lt _ (by omega))]
      simp only [List.sum_cons]
      omega

/-- `calc_checksum` is the truncated 8-bit sum of the first 39 bytes. -/
lemma calc_checksum_eq_sum (b : List Nat) :
    calc_checksum b = (b.take 39).sum % 256 := by
  rw [calc_checksum, foldl_mod256 _ 0 (by omega)]
  simp

/-- The checksum value always fits in 8 bits. -/
lemma calc_checksum_lt (b : List Nat) : calc_checksum b < 256 := by
  rw [calc_checksum_eq_sum]
  omega

/-- `getD` after a single `set`. -/
lemma getD_set (l : List Nat) (i x v : Nat) :
    (l.set i v).getD x 0 =
      if x = i ∧ i < l.length then v else l.getD x 0 := by
  by_cases hx : x < l.length
  · rw [List.getD_eq_getElem _ _ (by simp [hx]), List.getD_eq_getElem _ _ hx,
      List.getElem_set]
    by_cases hxi : x = i
    · subst hxi
      simp [hx]
    · rw [if_neg (fun h => hxi h.symm), if_neg (by tauto)]
  · rw [if_neg (by omega)]
    rw [List.getD_eq_default _ _ (by simpa using (by omega : l.length ≤ x)),
      List.getD_eq_default _ _ (by omega)]

/-- Setting an element at or past the take boundary does not change the
prefix. -/
lemma take_set_of_le (l : List Nat) (i j v : Nat) (h : j ≤ i) :
    (l.set i v).take j = l.take j := by
  apply List.ext_getElem
  · simp
  · intro n h1 h2
    simp only [List.getElem_take]
    rw [List.getElem_set, if_neg (by simp at h1; omega)]

/-- Overwriting the checksum byte (index 39) does not change the computed
checksum. -/
lemma calc_checksum_set39 (b : List Nat) (v : Nat) :
    calc_checksum (b.set 39 v) = calc_checksum b := by
  rw [calc_checksum, calc_checksum, take_set_of_le _ _ _ _ (le_refl 39)]

/-- Truncating every element of a list of bytes is the identity. -/
lemma map_mod256_of_lt (l : List Nat) (h : ∀ x ∈ l, x < 256) :
    l.map (fun b => b % 256) = l := by
  induction l with
  | nil => rfl
  | cons x xs ih =>
      simp only [List.map_cons]
      rw [Nat.mod_eq_of_lt (h x (by simp)), ih (fun y hy => h y (by simp [hy]))]

/-- `setBytes` does not change the record length. -/
lemma length_setBytes : ∀ (vs b : List Nat) (i : Nat),
    (setBytes b i vs).length = b.length := by
  intro vs
  induction vs with
  | nil => intro b i; rfl
  | cons v vs ih => intro b i; rw [setBytes, ih, List.length_set]

/-- Pointwise description of `setBytes`. -/
lemma setBytes_getD : ∀ (vs b : List Nat) (i x : Nat),
    (setBytes b i vs).getD x 0 =
      if i ≤ x ∧ x < i + vs.length ∧ x < b.length then vs.getD (x - i) 0 % 256
      else b.getD x 0 := by
  intro vs
  induction vs with
  | nil =>
      intro b i x
      rw [setBytes, if_neg (by simp; omega)]
  | cons v vs ih =>
      intro b i x
      rw [setBytes, ih, List.length_set]
      by_cases hin : (i + 1 ≤ x ∧ x < i + 1 + vs.length ∧ x < b.length)
      · rw [if_pos hin, if_pos (by simp only [List.length_cons]; omega)]
        have hxi : x - i = (x - (i + 1)) + 1 := by omega
        rw [hxi, List.getD_cons_succ]
      · rw [if_neg hin, getD_set]
        by_cases hxe : (x = i ∧ i < b.length)
        · rw [if_pos hxe, if_pos (by simp only [List.length_cons]; omega)]
          obtain ⟨h1, h2⟩ := hxe
          subst h1
          simp
        · rw [if_neg hxe, if_neg (by simp only [List.length_cons]; omega)]

/-- Effect of `eeprom_read_byte` from a ready device. -/
lemma read_byte_run (dev : Device) (addr : Nat) (hb : dev.busy = 0)
    (ha : addr < 65536) :
    eeprom_read_byte dev addr =
      ({ dev with ptr := addr + 1 },
       [Txn.write [(addr / 256) % 256, addr % 256] true true,
        Txn.read 1 [dev.mem addr] false true],
       dev.mem addr) := by
  have h : eeprom_read_byte dev addr =
      ((eeprom_read_buffer dev addr 1).1, (eeprom_read_buffer dev addr 1).2.1,
       (eeprom_read_buffer dev addr 1).2.2.headD 0) := rfl
  rw [h, read_buffer_run dev addr 1 hb ha]
  have hr : List.range 1 = [0] := rfl
  simp [readMem, hr]

/-- Effect of `eeprom_write_byte` from a ready device: one data transaction
followed by the ready barrier, storing the byte. -/
lemma write_byte_run (dev : Device) (addr v : Nat) (hb : dev.busy = 0)
    (ha : addr < 65536) :
    eeprom_write_byte dev addr v =
      ({ dev with mem := updateMem dev.mem addr v, ptr := addr, busy := 0 },
       Txn.write [(addr / 256) % 256, addr % 256, v] false true
         :: (List.replicate dev.busyAfterWrite (Txn.write [0] false false)
             ++ [Txn.write [0] false true])) := by
  obtain ⟨m, p, b, w⟩ := dev
  simp only at hb
  subst hb
  rw [eeprom_write_byte]
  simp only [i2c_write_blocking, Nat.lt_irrefl, if_false, List.isEmpty_cons]
  have ha2 : (addr / 256) % 256 % 256 * 256 + addr % 256 % 256 = addr := by omega
  simp only [ha2]
  rw [wait_ready_run w _ (by simp)]
  simp [writeMemWrap]

/-! ## Claim theorems -/

/-- C10: `eeprom_write_byte addr v` is exactly `eeprom_write_buffer addr [v]`
(same transactions, same final device state, ready barrier included), and
`eeprom_read_byte addr` reaches the same device state and transactions as a
one-byte `eeprom_read_buffer` and returns its (single) result byte. -/
theorem byte_ops_refine_buffer_ops (dev : Device) (addr v : Nat) :
    eeprom_write_byte dev addr v = eeprom_write_buffer dev addr [v]
    ∧ (eeprom_read_byte dev addr).1 = (eeprom_read_buffer dev addr 1).1
    ∧ (eeprom_read_byte dev addr).2.1 = (eeprom_read_buffer dev addr 1).2.1
    ∧ (eeprom_read_byte dev addr).2.2 =
        ((eeprom_read_buffer dev addr 1).2.2).headD 0 := by
  refine ⟨?_, rfl, rfl, rfl⟩
  rw [eeprom_write_buffer]
  have hsp : min (List.length [v]) (PAGE_SIZE - addr % PAGE_SIZE) = 1 := by
    simp only [List.length_singleton, PAGE_SIZE]
    omega
  simp only [hsp, List.take_one, List.head?_cons, Option.toList_some,
    List.drop_one, List.tail_cons]
  rw [eeprom_write_buffer]
  rw [eeprom_write_byte, _eeprom_write_page_raw]
  simp

/-- C4: a buffer read issues exactly one addressed dummy-write transaction
carrying the 2-byte big-endian offset with the bus held (repeated start),
immediately followed by exactly one read transaction of `len` bytes; the read
is never split at page boundaries. -/
theorem read_single_dummy_write_then_read (dev : Device) (addr len : Nat)
    (hb : dev.busy = 0) (ha : addr < 65536) :
    (eeprom_read_buffer dev addr len).2.1 =
      [Txn.write [(addr / 256) % 256, addr % 256] true true,
       Txn.read len (readMem dev.mem addr len) false true] := by
  rw [read_buffer_run dev addr len hb ha]

/-- Witness for C4 at a concrete input. -/
theorem read_single_dummy_write_then_read_witness :
    (eeprom_read_buffer dev0 1234 5).2.1 =
      [Txn.write [(1234 / 256) % 256, 1234 % 256] true true,
       Txn.read 5 (readMem dev0.mem 1234 5) false true] :=
  read_single_dummy_write_then_read dev0 1234 5 rfl (by decide)

/-- C1: writing a buffer and reading it back at the same offset returns the
written data, for every in-capacity request starting from a ready device. -/
theorem eeprom_write_read_roundtrip (dev : Device) (offset : Nat)
    (data : List Nat) (hb : dev.busy = 0)
    (hcap : offset + data.length ≤ CAPACITY) (hdata : ∀ b ∈ data, b < 256) :
    (eeprom_read_buffer (eeprom_write_buffer dev offset data).1 offset
      data.length).2.2 = data := by
  have hcap2 : offset + data.length ≤ 65536 := by
    simp only [CAPACITY] at hcap
    omega
  have ha : offset < 65536 := by
    simp only [CAPACITY] at hcap
    omega
  obtain ⟨hmem, hbusy, _⟩ :=
    write_buffer_run data.length dev offset data (le_refl _) hb hcap2
  rw [read_buffer_run _ offset data.length hbusy ha]
  simp only [hmem]
  rw [readMem_storeBytes data _ offset data.length (le_refl _)]
  rw [List.take_length]
  exact map_mod256_of_lt data hdata

/-- Witness for C1: a round trip across a page boundary. -/
theorem eeprom_write_read_roundtrip_witness :
    (eeprom_read_buffer (eeprom_write_buffer dev0 60 [1, 2, 3, 4, 5, 6]).1 60
      (List.length [1, 2, 3, 4, 5, 6])).2.2 = [1, 2, 3, 4, 5, 6] :=
  eeprom_write_read_roundtrip dev0 60 [1, 2, 3, 4, 5, 6] rfl (by decide)
    (by decide)

/-- C2 (amended): the driver performs no capacity check.  A request with
`offset + length > CAPACITY` is not rejected: the write still issues its page
transactions (a nonempty trace) and the read still issues its two
transactions. -/
theorem range_violation_no_rejection (dev : Device) (offset : Nat)
    (data : List Nat) (hb : dev.busy = 0)
    (hover : CAPACITY < offset + data.length) (hd : data ≠ []) :
    (eeprom_write_buffer dev offset data).2 ≠ []
    ∧ (eeprom_read_buffer dev offset data.length).2.1.length = 2 := by
  constructor
  · obtain ⟨d, ds, rfl⟩ : ∃ d ds, data = d :: ds := by
      cases data with
      | nil => exact absurd rfl hd
      | cons d ds => exact ⟨d, ds, rfl⟩
    rw [eeprom_write_buffer]
    rw [_eeprom_write_page_raw]
    simp
  · rfl

/-- Witness for the amended C2. -/
theorem range_violation_no_rejection_witness :
    (eeprom_write_buffer dev0 32767 [171, 205]).2 ≠ []
    ∧ (eeprom_read_buffer dev0 32767 (List.length [171, 205])).2.1.length = 2 :=
  range_violation_no_rejection dev0 32767 [171, 205] rfl (by decide) (by decide)

/-- C2 (counterexample): at offset 32767 with two data bytes —
`offset + length = 32769 > CAPACITY` — the write and the read do issue bus
transactions, contradicting the claim that such calls issue zero
transactions. -/
theorem range_violation_cex :
    ¬ ((eeprom_write_buffer dev0 32767 [171, 205]).2 = []
       ∧ (eeprom_read_buffer dev0 32767 2).2.1 = []) := by
  intro h
  have h1 := h.1
  rw [eeprom_write_buffer] at h1
  rw [_eeprom_write_page_raw] at h1
  simp at h1

/-- The transaction trace and final busy state of one page write, with no
assumption that the data fits the page (the trace records the request bytes
as issued either way). -/
lemma write_page_raw_busy_trace (dev : Device) (addr : Nat) (data : List Nat)
    (hb : dev.busy = 0) (hd : data ≠ []) :
    (_eeprom_write_page_raw dev addr data).2 =
      Txn.write ((addr / 256) % 256 :: addr % 256 :: data) false true
        :: (List.replicate dev.busyAfterWrite (Txn.write [0] false false)
            ++ [Txn.write [0] false true])
    ∧ (_eeprom_write_page_raw dev addr data).1.busy = 0 := by
  obtain ⟨d, ds, rfl⟩ : ∃ d ds, data = d :: ds := by
    cases data with
    | nil => exact absurd rfl hd
    | cons d ds => exact ⟨d, ds, rfl⟩
  obtain ⟨m, p, b, w⟩ := dev
  simp only at hb
  subst hb
  rw [_eeprom_write_page_raw]
  simp only [i2c_write_blocking, Nat.lt_irrefl, if_false, List.isEmpty_cons]
  rw [wait_ready_run w _ (by simp)]
  simp

/-- C9: each page-segment write transaction (and each `eeprom_write_byte`) is
immediately followed by the ready barrier: the trace continues with NACKed
probe transactions, one per remaining busy step, then the ACKed probe, and
only then does the call return (with the device ready, so no further
transaction precedes the barrier's completion).  The polling loop itself has
no retry bound: against a device that never ACKs it runs out of any finite
fuel. -/
theorem write_ready_barrier_unbounded (dev : Device) (addr : Nat)
    (data : List Nat) (v : Nat) (hb : dev.busy = 0) (hd : data ≠ [])
    (ha : addr < 65536) :
    (_eeprom_write_page_raw dev addr data).2 =
      Txn.write ((addr / 256) % 256 :: addr % 256 :: data) false true
        :: (List.replicate dev.busyAfterWrite (Txn.write [0] false false)
            ++ [Txn.write [0] false true])
    ∧ (_eeprom_write_page_raw dev addr data).1.busy = 0
    ∧ (eeprom_write_byte dev addr v).2 =
        Txn.write [(addr / 256) % 256, addr % 256, v] false true
          :: (List.replicate dev.busyAfterWrite (Txn.write [0] false false)
              ++ [Txn.write [0] false true])
    ∧ (∀ ack : Nat → Bool, (∀ i, ack i = false) →
        ∀ fuel i, waitReadyFuel ack fuel i = none) := by
  obtain ⟨h1, h2⟩ := write_page_raw_busy_trace dev addr data hb hd
  refine ⟨h1, h2, ?_, ?_⟩
  · rw [write_byte_run dev addr v hb ha]
  · intro ack hack fuel
    induction fuel with
    | zero => intro i; rfl
    | succ n ih =>
        intro i
        rw [waitReadyFuel, hack i]
        simp only [Bool.false_eq_true, if_false]
        exact ih (i + 1)

/-- Witness for C9. -/
theorem write_ready_barrier_unbounded_witness :
    (_eeprom_write_page_raw dev0 100 [7, 8]).2 =
      Txn.write ((100 / 256) % 256 :: 100 % 256 :: [7, 8]) false true
        :: (List.replicate dev0.busyAfterWrite (Txn.write [0] false false)
            ++ [Txn.write [0] false true])
    ∧ (_eeprom_write_page_raw dev0 100 [7, 8]).1.busy = 0
    ∧ (eeprom_write_byte dev0 100 9).2 =
        Txn.write [(100 / 256) % 256, 100 % 256, 9] false true
          :: (List.replicate dev0.busyAfterWrite (Txn.write [0] false false)
              ++ [Txn.write [0] false true])
    ∧ (∀ ack : Nat → Bool, (∀ i, ack i = false) →
        ∀ fuel i, waitReadyFuel ack fuel i = none) :=
  write_ready_barrier_unbounded dev0 100 [7, 8] 9 rfl (by decide) (by decide)

/-- C5: `eeprom_update_byte` always reads the stored byte first (the trace
starts with the dummy write and the read transaction); when the stored byte
equals the new value it issues no data write and leaves memory unchanged;
when it differs it issues exactly one one-byte data write. -/
theorem update_byte_read_before_write (dev : Device) (addr v : Nat)
    (hb : dev.busy = 0) (ha : addr < 65536) :
    (∃ rest, (eeprom_update_byte dev addr v).2 =
        Txn.write [(addr / 256) % 256, addr % 256] true true
          :: Txn.read 1 [dev.mem addr] false true :: rest)
    ∧ (dev.mem addr = v →
        dataWrites (eeprom_update_byte dev addr v).2 = []
        ∧ (eeprom_update_byte dev addr v).1.mem = dev.mem)
    ∧ (dev.mem addr ≠ v →
        dataWrites (eeprom_update_byte dev addr v).2 =
          [Txn.write [(addr / 256) % 256, addr % 256, v] false true]) := by
  rw [eeprom_update_byte, read_byte_run dev addr hb ha]
  by_cases hv : dev.mem addr = v
  · rw [if_neg (by simp [hv])]
    refine ⟨⟨[], rfl⟩, fun _ => ⟨?_, rfl⟩, fun h => absurd hv h⟩
    simp [dataWrites, isDataWrite]
  · rw [if_pos (by simp [hv])]
    rw [write_byte_run _ addr v (by simp [hb]) ha]
    simp only
    refine ⟨⟨_, rfl⟩, fun h => absurd h hv, fun _ => ?_⟩
    simp [dataWrites, isDataWrite, List.filter_append]

/-- Witness for C5 (both branches instantiated; on the blank device the
stored byte 0 differs from 9 and equals 0). -/
theorem update_byte_read_before_write_witness :
    (∃ rest, (eeprom_update_byte dev0 5 9).2 =
        Txn.write [(5 / 256) % 256, 5 % 256] true true
          :: Txn.read 1 [dev0.mem 5] false true :: rest)
    ∧ (dev0.mem 5 = 9 →
        dataWrites (eeprom_update_byte dev0 5 9).2 = []
        ∧ (eeprom_update_byte dev0 5 9).1.mem = dev0.mem)
    ∧ (dev0.mem 5 ≠ 9 →
        dataWrites (eeprom_update_byte dev0 5 9).2 =
          [Txn.write [(5 / 256) % 256, 5 % 256, 9] false true]) :=
  update_byte_read_before_write dev0 5 9 rfl (by decide)

/-- Every transaction issued by `eeprom_write_buffer` carries a data payload
of at most `PAGE_SIZE - (transaction address) mod PAGE_SIZE` bytes (probe
transactions carry none). -/
lemma write_buffer_payload_bound :
    ∀ (n : Nat) (dev : Device) (addr : Nat) (data : List Nat),
      data.length ≤ n → dev.busy = 0 → addr + data.length ≤ 65536 →
      ∀ t ∈ (eeprom_write_buffer dev addr data).2,
        (txnPayload t).length ≤ PAGE_SIZE - txnAddr t % PAGE_SIZE := by
  intro n
  induction n with
  | zero =>
      intro dev addr data hn hb hcap t ht
      have hnil : data = [] := List.length_eq_zero.mp (by omega)
      subst hnil
      rw [eeprom_write_buffer] at ht
      simp at ht
  | succ n ih =>
      intro dev addr data hn hb hcap t ht
      cases data with
      | nil => rw [eeprom_write_buffer] at ht; simp at ht
      | cons d ds =>
          rw [eeprom_write_buffer] at ht
          simp only at ht
          set chunk := min (d :: ds).length (PAGE_SIZE - addr % PAGE_SIZE)
            with hchunk
          have hc1 : 1 ≤ chunk := by
            rw [hchunk]
            simp only [List.length_cons, PAGE_SIZE]
            omega
          have hclen : chunk ≤ (d :: ds).length := min_le_left _ _
          have ha : addr < 65536 := by
            simp only [List.length_cons] at hcap
            omega
          have htake : ((d :: ds).take chunk).length = chunk :=
            List.length_take_of_le hclen
          have htne : (d :: ds).take chunk ≠ [] := by
            intro h
            rw [h] at htake
            simp at htake
            omega
          rw [write_page_raw_run dev addr _ hb ha htne
            (by rw [htake]; exact min_le_right _ _)] at ht
          have haddr : (addr / 256) % 256 % 256 * 256 + addr % 256 % 256 = addr := by
            omega
          rw [List.cons_append] at ht
          rcases List.mem_cons.mp ht with h | ht2
          · subst h
            simp only [txnPayload, txnAddr, haddr, htake]
            exact min_le_right _ _
          · rcases List.mem_append.mp ht2 with h2 | ht3
            · rcases List.mem_append.mp h2 with hr | hs
              · rw [List.eq_of_mem_replicate hr]
                simp [txnPayload]
              · rw [List.mem_singleton.mp hs]
                simp [txnPayload]
            · refine ih _ _ _ (by simp only [List.length_drop]; omega) (by simp)
                ?_ t ht3
              simp only [List.length_drop]
              simp only [List.length_cons] at hcap ⊢
              omega

/-- C3: the paged write never issues a transaction whose data payload exceeds
the space left in the page it addresses (`PAGE_SIZE - addr mod PAGE_SIZE`),
and on the spec's concrete scenario — `write_buffer(60, [1,2,3,4,5,6])` with
`P = 64` — it issues exactly the two data transactions
`(addr=60, bytes=[1,2,3,4])` and `(addr=64, bytes=[5,6])`. -/
theorem write_paging_bound_and_scenario (dev : Device) (addr : Nat)
    (data : List Nat) (hb : dev.busy = 0) (hcap : addr + data.length ≤ 65536) :
    (∀ t ∈ (eeprom_write_buffer dev addr data).2,
       (txnPayload t).length ≤ PAGE_SIZE - txnAddr t % PAGE_SIZE)
    ∧ dataWrites (eeprom_write_buffer dev0 60 [1, 2, 3, 4, 5, 6]).2 =
        [Txn.write [0, 60, 1, 2, 3, 4] false true,
         Txn.write [0, 64, 5, 6] false true] := by
  constructor
  · exact write_buffer_payload_bound data.length dev addr data (le_refl _) hb hcap
  · rw [eeprom_write_buffer.eq_def]
    simp only
    norm_num
    rw [show (6 : Nat) ⊓ (PAGE_SIZE - 60 % PAGE_SIZE) = 4 from by decide]
    rw [show List.take 4 [1, 2, 3, 4, 5, 6] = [1, 2, 3, 4] from rfl,
        show List.drop 4 [1, 2, 3, 4, 5, 6] = [5, 6] from rfl,
        show (60 + 4) % 65536 = 64 from by decide]
    rw [write_page_raw_run dev0 60 [1, 2, 3, 4] rfl (by decide) (by decide)
      (by decide)]
    simp only
    rw [eeprom_write_buffer.eq_def]
    simp only
    norm_num
    rw [show (2 : Nat) ⊓ (PAGE_SIZE - 64 % PAGE_SIZE) = 2 from by decide]
    rw [show List.take 2 [5, 6] = [5, 6] from rfl,
        show List.drop 2 [5, 6] = ([] : List Nat) from rfl]
    rw [write_page_raw_run _ 64 [5, 6] (by simp) (by decide) (by decide)
      (by decide)]
    rw [eeprom_write_buffer.eq_def]
    simp [dataWrites, isDataWrite, dev0]

/-- Witness for C3. -/
theorem write_paging_bound_and_scenario_witness :
    (∀ t ∈ (eeprom_write_buffer dev0 60 [1, 2, 3, 4, 5, 6]).2,
       (txnPayload t).length ≤ PAGE_SIZE - txnAddr t % PAGE_SIZE)
    ∧ dataWrites (eeprom_write_buffer dev0 60 [1, 2, 3, 4, 5, 6]).2 =
        [Txn.write [0, 60, 1, 2, 3, 4] false true,
         Txn.write [0, 64, 5, 6] false true] :=
  write_paging_bound_and_scenario dev0 60 [1, 2, 3, 4, 5, 6] rfl (by decide)

/-- C6: `calc_checksum` of a 40-byte record is the truncated 8-bit sum (sum
modulo 256) of all serialized bytes except the trailing checksum byte, and
the checksum byte's own value contributes nothing: overwriting byte 39 never
changes the computed checksum (so the function is a deterministic function of
the other 39 bytes). -/
theorem calc_checksum_spec (b : List Nat) (hlen : b.length = 40) :
    calc_checksum b = b.dropLast.sum % 256
    ∧ ∀ v, calc_checksum (b.set 39 v) = calc_checksum b := by
  constructor
  · rw [calc_checksum_eq_sum]
    congr 2
    rw [List.dropLast_eq_take, hlen]
  · intro v
    exact calc_checksum_set39 b v

/-- Witness for C6. -/
theorem calc_checksum_spec_witness :
    calc_checksum (List.replicate 40 7) = (List.replicate 40 7).dropLast.sum % 256
    ∧ ∀ v, calc_checksum ((List.replicate 40 7).set 39 v) =
        calc_checksum (List.replicate 40 7) :=
  calc_checksum_spec (List.replicate 40 7) (by decide)

/-- C8: `settings_save` overwrites the checksum field with the recomputed
checksum and writes the full 40-byte record to the settings address; after it
completes, the persisted bytes are exactly the returned record, and the
persisted checksum byte (byte 39) equals the truncated sum of the other 39
persisted bytes. -/
theorem settings_save_persists_checksum (dev : Device) (cur : List Nat)
    (hb : dev.busy = 0) (hlen : cur.length = 40)
    (hbytes : ∀ x ∈ cur, x < 256) :
    readMem (settings_save dev cur).1.mem 0 40 = (settings_save dev cur).2.2
    ∧ (settings_save dev cur).1.mem 39 =
        (readMem (settings_save dev cur).1.mem 0 39).sum % 256 := by
  rw [settings_save]
  simp only
  set cur2 := cur.set 39 (calc_checksum cur) with hcur2
  have hlen2 : cur2.length = 40 := by rw [hcur2, List.length_set, hlen]
  have hbytes2 : ∀ x ∈ cur2, x < 256 := by
    intro x hx
    rcases List.mem_or_eq_of_mem_set hx with h | h
    · exact hbytes x h
    · rw [h]; exact calc_checksum_lt cur
  rw [write_buffer_single_page dev SETTINGS_ADDR cur2 hb
    (by intro h; rw [h] at hlen2; simp at hlen2) (by rw [SETTINGS_ADDR]; omega)
    (by rw [hlen2, SETTINGS_ADDR, PAGE_SIZE]; omega)]
  simp only [SETTINGS_ADDR]
  constructor
  · rw [readMem_storeBytes cur2 dev.mem 0 40 (by omega)]
    rw [List.take_of_length_le (by omega)]
    exact map_mod256_of_lt cur2 hbytes2
  · rw [storeBytes_lookup, if_pos (by omega)]
    rw [readMem_storeBytes cur2 dev.mem 0 39 (by omega)]
    rw [map_mod256_of_lt _ (fun x hx => hbytes2 x (List.mem_of_mem_take hx))]
    have h1 : cur2.getD (39 - 0) 0 = calc_checksum cur := by
      rw [hcur2, getD_set, if_pos (by omega)]
    have h2 : cur2.take 39 = cur.take 39 := by
      rw [hcur2, take_set_of_le _ _ _ _ (le_refl 39)]
    rw [h1, h2]
    rw [Nat.mod_eq_of_lt (calc_checksum_lt cur)]
    rw [calc_checksum_eq_sum]

/-- Witness for C8. -/
theorem settings_save_persists_checksum_witness :
    readMem (settings_save dev0 (List.replicate 40 7)).1.mem 0 40 =
      (settings_save dev0 (List.replicate 40 7)).2.2
    ∧ (settings_save dev0 (List.replicate 40 7)).1.mem 39 =
        (readMem (settings_save dev0 (List.replicate 40 7)).1.mem 0 39).sum
          % 256 :=
  settings_save_persists_checksum dev0 (List.replicate 40 7) rfl (by decide)
    (by decide)

/-- Ready-barrier probes never count as data writes. -/
lemma filter_isDataWrite_replicate_probe (n : Nat) (a : Bool) :
    List.filter isDataWrite (List.replicate n (Txn.write [0] false a)) = [] := by
  induction n with
  | zero => rfl
  | succ n ih =>
      rw [List.replicate_succ, List.filter_cons]
      rw [show isDataWrite (Txn.write [0] false a) = false from rfl]
      simp only [Bool.false_eq_true, if_false]
      exact ih

/-- C7: `settings_init` reads the 40-byte record from the settings address.
When magic and checksum validate it returns the stored bytes unchanged,
issues no data write and leaves memory untouched; otherwise it builds the
default record — motor offset 0, magic `0xA55A`, identifier `"MyWifi"`
(NUL-terminated), volume 50 — persists it with exactly one 40-byte data write
to address 0 and returns it, with the checksum byte made consistent by the
save.  In both cases the function returns only the record: corruption is
repaired silently, never reported. -/
theorem settings_init_load_repair (dev : Device) (hb : dev.busy = 0) :
    ((magic_of (readMem dev.mem 0 40) = MAGIC_CODE
      ∧ checksum_of (readMem dev.mem 0 40) =
          calc_checksum (readMem dev.mem 0 40)) →
      (settings_init dev).2.2 = readMem dev.mem 0 40
      ∧ dataWrites (settings_init dev).2.1 = []
      ∧ (settings_init dev).1.mem = dev.mem)
    ∧ (¬ (magic_of (readMem dev.mem 0 40) = MAGIC_CODE
         ∧ checksum_of (readMem dev.mem 0 40) =
             calc_checksum (readMem dev.mem 0 40)) →
      magic_of (settings_init dev).2.2 = MAGIC_CODE
      ∧ (settings_init dev).2.2.getD 38 0 = 50
      ∧ ((settings_init dev).2.2.getD 0 0 = 0
         ∧ (settings_init dev).2.2.getD 1 0 = 0
         ∧ (settings_init dev).2.2.getD 2 0 = 0
         ∧ (settings_init dev).2.2.getD 3 0 = 0)
      ∧ ((settings_init dev).2.2.getD 6 0 = 77
         ∧ (settings_init dev).2.2.getD 7 0 = 121
         ∧ (settings_init dev).2.2.getD 8 0 = 87
         ∧ (settings_init dev).2.2.getD 9 0 = 105
         ∧ (settings_init dev).2.2.getD 10 0 = 102
         ∧ (settings_init dev).2.2.getD 11 0 = 105
         ∧ (settings_init dev).2.2.getD 12 0 = 0)
      ∧ checksum_of (settings_init dev).2.2 =
          calc_checksum (settings_init dev).2.2
      ∧ (settings_init dev).2.2.length = 40
      ∧ dataWrites (settings_init dev).2.1 =
          [Txn.write (0 :: 0 :: (settings_init dev).2.2) false true]) := by
  have hread := read_buffer_run dev 0 40 hb (by omega)
  have hs : (readMem dev.mem 0 40).length = 40 := by simp [readMem]
  rw [settings_init]
  simp only [SETTINGS_ADDR, SIZEOF_SystemSettings]
  rw [hread]
  simp only
  set st := readMem dev.mem 0 40 with hst
  by_cases hvalid : magic_of st = MAGIC_CODE ∧ checksum_of st = calc_checksum st
  · rw [if_neg (by push_neg; exact hvalid)]
    refine ⟨fun _ => ⟨rfl, rfl, rfl⟩, fun h => absurd hvalid h⟩
  · rw [if_pos (by tauto)]
    rw [settings_save]
    simp only [SETTINGS_ADDR]
    set d := default_bytes st with hd
    have hdlen : d.length = 40 := by
      rw [hd, default_bytes]
      simp only [length_setBytes]
      exact hs
    set d2 := d.set 39 (calc_checksum d) with hd2
    have hd2len : d2.length = 40 := by rw [hd2, List.length_set, hdlen]
    rw [write_buffer_single_page _ 0 d2 (by simp [hb])
      (by intro h; rw [h] at hd2len; simp at hd2len) (by omega)
      (by rw [hd2len, PAGE_SIZE]; omega)]
    simp only
    refine ⟨fun h => absurd h hvalid, fun _ => ?_⟩
    have hfields : d2.getD 0 0 = 0 ∧ d2.getD 1 0 = 0 ∧ d2.getD 2 0 = 0
        ∧ d2.getD 3 0 = 0 ∧ d2.getD 4 0 = 90 ∧ d2.getD 5 0 = 165
        ∧ d2.getD 6 0 = 77 ∧ d2.getD 7 0 = 121 ∧ d2.getD 8 0 = 87
        ∧ d2.getD 9 0 = 105 ∧ d2.getD 10 0 = 102 ∧ d2.getD 11 0 = 105
        ∧ d2.getD 12 0 = 0 ∧ d2.getD 38 0 = 50 := by
      rw [hd2, hd, default_bytes]
      simp only [getD_set, setBytes_getD, length_setBytes, List.length_set, hs]
      norm_num
    obtain ⟨h0, h1, h2, h3, h4, h5, h6, h7, h8, h9, h10, h11, h12, h38⟩ :=
      hfields
    have hchk : checksum_of d2 = calc_checksum d2 := by
      rw [checksum_of, hd2, getD_set, if_pos (by refine ⟨rfl, ?_⟩; omega)]
      rw [calc_checksum_set39]
    refine ⟨?_, h38, ⟨h0, h1, h2, h3⟩,
      ⟨h6, h7, h8, h9, h10, h11, h12⟩, hchk, hd2len, ?_⟩
    · rw [magic_of, h4, h5]
      decide
    · rw [dataWrites, List.filter_append]
      rw [show List.filter isDataWrite
          [Txn.write [0 / 256 % 256, 0 % 256] true true,
           Txn.read 40 st false true] = [] from rfl]
      rw [List.filter_cons]
      rw [show isDataWrite (Txn.write (0 / 256 % 256 :: 0 % 256 :: d2) false true)
          = decide (3 ≤ (0 / 256 % 256 :: 0 % 256 :: d2).length) from rfl]
      simp only [List.length_cons, hd2len]
      rw [List.filter_append, filter_isDataWrite_replicate_probe]
      rw [show List.filter isDataWrite [Txn.write [0] false true] = [] from rfl]
      norm_num

/-- Witness for C7 on the all-zero device: the magic is 0, so the repair
branch is taken. -/
theorem settings_init_load_repair_witness :
    ((magic_of (readMem dev0.mem 0 40) = MAGIC_CODE
      ∧ checksum_of (readMem dev0.mem 0 40) =
          calc_checksum (readMem dev0.mem 0 40)) →
      (settings_init dev0).2.2 = readMem dev0.mem 0 40
      ∧ dataWrites (settings_init dev0).2.1 = []
      ∧ (settings_init dev0).1.mem = dev0.mem)
    ∧ (¬ (magic_of (readMem dev0.mem 0 40) = MAGIC_CODE
         ∧ checksum_of (readMem dev0.mem 0 40) =
             calc_checksum (readMem dev0.mem 0 40)) →
      magic_of (settings_init dev0).2.2 = MAGIC_CODE
      ∧ (settings_init dev0).2.2.getD 38 0 = 50
      ∧ ((settings_init dev0).2.2.getD 0 0 = 0
         ∧ (settings_init dev0).2.2.getD 1 0 = 0
         ∧ (settings_init dev0).2.2.getD 2 0 = 0
         ∧ (settings_init dev0).2.2.getD 3 0 = 0)
      ∧ ((settings_init dev0).2.2.getD 6 0 = 77
         ∧ (settings_init dev0).2.2.getD 7 0 = 121
         ∧ (settings_init dev0).2.2.getD 8 0 = 87
         ∧ (settings_init dev0).2.2.getD 9 0 = 105
         ∧ (settings_init dev0).2.2.getD 10 0 = 102
         ∧ (settings_init dev0).2.2.getD 11 0 = 105
         ∧ (settings_init dev0).2.2.getD 12 0 = 0)
      ∧ checksum_of (settings_init dev0).2.2 =
          calc_checksum (settings_init dev0).2.2
      ∧ (settings_init dev0).2.2.length = 40
      ∧ dataWrites (settings_init dev0).2.1 =
          [Txn.write (0 :: 0 :: (settings_init dev0).2.2) false true]) :=
  settings_init_load_repair dev0 rfl
